import Mathlib

/-!
Shallow embedding of `src/BuildCharts.py`, a linear data pipeline that loads a
survey spreadsheet, cleans it, renders six charts and prints seven
percentage-gain statistics.  Tables are lists of rows; a cell of a raw
spreadsheet column is modelled by `Cell` (a number, a text entry, or the
missing marker NaN); numeric columns that can hold missing values are
`Option ℚ`.  Candidate labels are a parameter `κ` with a linear order, since
pandas `groupby` sorts group keys.
-/

namespace BuildCharts

/-- A raw spreadsheet cell: a numeric value, a textual entry, or the missing
marker (pandas NaN). -/
inductive Cell where
  | num (q : ℚ)
  | str (s : String)
  | na
deriving DecidableEq, Repr

/-- Numeric view of a cell: `some` for a number, `none` for text or missing
(pandas skips NaN, and object entries are not numeric). -/
def Cell.toOpt : Cell → Option ℚ
  | .num q => some q
  | .str _ => none
  | .na => none

/-- One row of the observation table (sheet `Survey Raw` after load): a
(candidate, day) sample with the five 0-10 scale columns as raw cells, the
max-heart-rate column as an optional numeric, and the posture category cell. -/
structure Row (κ : Type) where
  candidate : κ
  day : ℚ
  energy : Cell
  mood : Cell
  clarity : Cell
  anxiety : Cell
  pain : Cell
  heartRate : Option ℚ
  posture : Cell
deriving DecidableEq, Repr

variable {κ : Type}

/-! ### Header cleaning (line 20):
`df_new.columns.str.strip().str.replace(r'\n|\[|\]', '', regex=True)` -/

/-- Python `str.isspace` for the ASCII whitespace characters handled by
`str.strip()` with no argument. -/
def isPySpace (c : Char) : Bool :=
  c = ' ' || c = '\t' || c = '\n' || c = '\r' || c = Char.ofNat 11 || c = Char.ofNat 12

/-- Python `str.strip()`: drop leading and trailing whitespace. -/
def pyStrip (s : List Char) : List Char :=
  List.rdropWhile isPySpace (s.dropWhile isPySpace)

/-- Is the character removed by the regex `\n|\[|\]`? -/
def isSpecial (c : Char) : Bool :=
  c = '\n' || c = '[' || c = ']'

/-- `str.replace(r'\n|\[|\]', '', regex=True)`: delete every newline and
bracket character. -/
def removeSpecial (s : List Char) : List Char :=
  s.filter (fun c => !isSpecial c)

/-- The column-header normalization of line 20: strip leading/trailing
whitespace, then remove newline and bracket characters. -/
def cleanHeader (s : List Char) : List Char :=
  removeSpecial (pyStrip s)

/-! ### Numeric coercion (lines 23-27): `pd.to_numeric(col, errors='coerce')` -/

/-- Numeral value of a digit string. -/
def digitsVal (ds : List Char) : ℕ :=
  ds.foldl (fun a c => a * 10 + (c.toNat - 48)) 0

/-- Parse an unsigned decimal literal (digits with at most one point,
at least one digit). Modelled from the numeric-literal strings accepted by
`pandas.to_numeric`, which is library code outside this repository. -/
def parseUnsigned (cs : List Char) : Option ℚ :=
  let ip := cs.takeWhile Char.isDigit
  let rest := cs.dropWhile Char.isDigit
  match rest with
  | [] => if ip.isEmpty then none else some (digitsVal ip)
  | '.' :: fp =>
      if fp.all Char.isDigit && !(ip.isEmpty && fp.isEmpty) then
        some ((digitsVal ip : ℚ) + (digitsVal fp : ℚ) / (10 : ℚ) ^ fp.length)
      else none
  | _ => none

/-- Parse an optionally signed decimal literal. -/
def parseNumStr (s : String) : Option ℚ :=
  match s.toList with
  | '-' :: cs => (parseUnsigned cs).map (fun q => -q)
  | '+' :: cs => parseUnsigned cs
  | cs => parseUnsigned cs

/-- The numeric value `pd.to_numeric` extracts from a raw cell, if any:
numbers pass through, strings are parsed, missing stays missing. -/
def parseCell : Cell → Option ℚ
  | .num q => some q
  | .str s => parseNumStr s
  | .na => none

/-- `pd.to_numeric(x, errors='coerce')` on one cell: the parsed number, or
the missing marker when the value is not parseable.  Total: no exception. -/
def toNumericCoerce (c : Cell) : Cell :=
  match parseCell c with
  | some q => .num q
  | none => .na

/-- Lines 23-27: coerce the five designated 0-10 scale columns of a row to
numeric. -/
def cleanRow (r : Row κ) : Row κ :=
  { r with
    energy := toNumericCoerce r.energy
    mood := toNumericCoerce r.mood
    clarity := toNumericCoerce r.clarity
    anxiety := toNumericCoerce r.anxiety
    pain := toNumericCoerce r.pain }

/-- The cleaning pass over the whole table. -/
def cleanTable (t : List (Row κ)) : List (Row κ) :=
  t.map cleanRow

/-! ### Candidates and grouping -/

variable [LinearOrder κ]

/-- Helper for `uniqueFirstSeen`: keep each element the first time it is seen. -/
def uniqueAux [DecidableEq α] : List α → List α → List α
  | [], _ => []
  | a :: l, seen =>
      if a ∈ seen then uniqueAux l seen else a :: uniqueAux l (a :: seen)

/-- `pandas.Series.unique` (line 30): the distinct values of a column in
order of first appearance. -/
def uniqueFirstSeen [DecidableEq α] (l : List α) : List α :=
  uniqueAux l []

/-- Line 30: `candidates = df_new['Candidate'].unique()`. -/
def candidatesOf (t : List (Row κ)) : List κ :=
  uniqueFirstSeen (t.map Row.candidate)

/-- The group keys produced by `df.groupby('Candidate')`: pandas sorts the
distinct keys (default `sort=True`), so the index of every grouped aggregate
is the sorted list of distinct candidates. -/
def groupKeys (t : List (Row κ)) : List κ :=
  (candidatesOf t).insertionSort (· ≤ ·)

/-- The rows of one candidate, in table order
(`df_new[df_new['Candidate'] == candidate]`). -/
def rowsOf (t : List (Row κ)) (c : κ) : List (Row κ) :=
  t.filter (fun r => decide (r.candidate = c))

/-- `df.groupby('Candidate')[col].first()` for one group: pandas returns the
first non-missing value of the column within the group, `NaN` if none. -/
def groupFirst (t : List (Row κ)) (c : κ) (v : Row κ → Option ℚ) : Option ℚ :=
  (rowsOf t c).findSome? v

/-- `df.groupby('Candidate')[col].last()` for one group: the last non-missing
value of the column within the group. -/
def groupLast (t : List (Row κ)) (c : κ) (v : Row κ → Option ℚ) : Option ℚ :=
  (rowsOf t c).reverse.findSome? v

/-- `df.groupby('Candidate')[col].max()` for one group: the maximum over the
non-missing values, `NaN` if none. -/
def groupMax (t : List (Row κ)) (c : κ) (v : Row κ → Option ℚ) : Option ℚ :=
  ((rowsOf t c).filterMap v).max?

/-! ### Heart-rate filter (line 34):
`df_cleaned_heart_rate = df_new.dropna(subset=['Max Heart Rate During Walk/Run'])` -/

/-- `dropna(subset=['Max Heart Rate During Walk/Run'])`: keep exactly the rows
whose heart-rate value is present. -/
def dropnaHeartRate (t : List (Row κ)) : List (Row κ)  :=
  t.filter (fun r => r.heartRate.isSome)

/-- Line 34 as a pipeline step: the source table `df_new` flows on unchanged,
and the derived table `df_cleaned_heart_rate` is the filtered copy. -/
def heartRateFilterStep (t : List (Row κ)) : List (Row κ) × List (Row κ) :=
  (t, dropnaHeartRate t)

/-! ### Spline chart (lines 85-89) -/

/-- `np.linspace(a, b, num)` (numpy library code, modelled from its documented
contract): `num` evenly spaced samples from `a` to `b`, endpoints included. -/
def linspace (a b : ℚ) (num : ℕ) : List ℚ :=
  (List.range num).map (fun i : ℕ => a + (b - a) * (i : ℚ) / ((num : ℚ) - 1))

/-- Modelled from the spec: `scipy.interpolate.make_interp_spline` is library
code outside this repository; per the spec, a degree-`k` spline fit succeeds
iff the candidate has at least `k + 1` distinct (day, value) pairs. -/
def splineFitOk (pts : List (ℚ × ℚ)) (k : ℕ) : Bool :=
  decide (k + 1 ≤ pts.dedup.length)

/-- The (day, heart-rate) pairs the heart-rate chart uses for one candidate
(line 86): the candidate's rows with the missing heart rates dropped. -/
def candidateHeartRatePts (t : List (Row κ)) (c : κ) : List (ℚ × ℚ) :=
  (dropnaHeartRate (rowsOf t c)).map (fun r => (r.day, r.heartRate.getD 0))

/-- Lines 86-89 for one candidate: the 300 evaluation points
`np.linspace(day.min(), day.max(), 300)` of the degree-3 spline curve, or
`none` when the spline fit fails. -/
def heartRateCurveX (t : List (Row κ)) (c : κ) : Option (List ℚ) :=
  let pts := candidateHeartRatePts t c
  if splineFitOk pts 3 then
    match (pts.map Prod.fst).min?, (pts.map Prod.fst).max? with
    | some a, some b => some (linspace a b 300)
    | _, _ => none
  else none

/-! ### Posture mapping and radar chart (lines 100-130) -/

/-- Lines 102-106: `df[col].replace({...})` with the three posture category
strings; any cell equal to a key becomes the mapped number, every other cell
is left unchanged. -/
def postureMap (c : Cell) : Cell :=
  if c = .str "~1 degree" then .num 1
  else if c = .str "~ greater than 3 degree" then .num 3
  else if c = .str "~ greater than 5 degrees" then .num 5
  else c

/-- The posture-replacement pass over the table. -/
def replacePosture (t : List (Row κ)) : List (Row κ) :=
  t.map (fun r => { r with posture := postureMap r.posture })

/-- Line 109: `df_new.groupby('Candidate')[posture].max()`, one value per
candidate, indexed by the sorted candidate keys. -/
def posturePerCandidate (t : List (Row κ)) : List (Option ℚ) :=
  (groupKeys t).map (fun c => groupMax t c (fun r => r.posture.toOpt))

/-- Line 111: `categories = list(overall_posture_correction_normalized.index)`:
the index of the grouped aggregate, i.e. the sorted distinct candidates. -/
def radarCategories (t : List (Row κ)) : List κ :=
  groupKeys t

/-- Line 119: `angles = [n / float(N) * 2 * pi for n in range(N)]`, with the
constant `2 * pi` abstracted as the parameter `twoPi`. -/
def radarAngles (twoPi : ℚ) (N : ℕ) : List ℚ :=
  (List.range N).map (fun n : ℕ => (n : ℚ) / (N : ℚ) * twoPi)

/-- Lines 116 and 120: `xs += xs[:1]`, repeating the first element at the end
to close the polygon. -/
def closeLoop (l : List α) : List α :=
  l ++ l.take 1

/-! ### Percentage-gain summarizer (lines 132-178) -/

/-- The orientation of an "increase" metric (lines 144, 150, 174):
`(final - initial) / initial * 100`. -/
def pctIncrease (initial final : ℚ) : ℚ :=
  (final - initial) / initial * 100

/-- The orientation of a "reduction" metric (lines 138, 156, 162):
`(initial - final) / initial * 100`. -/
def pctReduction (initial final : ℚ) : ℚ :=
  (initial - final) / initial * 100

/-- Per-candidate percentage change of a reduction metric: pandas series
arithmetic on the `first()`/`last()` aggregates, with `NaN` propagating. -/
def reductionOf (t : List (Row κ)) (v : Row κ → Option ℚ) (c : κ) : Option ℚ :=
  Option.map₂ pctReduction (groupFirst t c v) (groupLast t c v)

/-- Per-candidate percentage change of an increase metric. -/
def increaseOf (t : List (Row κ)) (v : Row κ → Option ℚ) (c : κ) : Option ℚ :=
  Option.map₂ pctIncrease (groupFirst t c v) (groupLast t c v)

/-- Line 168 per candidate: `(final_posture - 0) / 5 * 100` with the group
max as the final value. -/
def postureImprovementOf (t : List (Row κ)) (c : κ) : Option ℚ :=
  (groupMax t c (fun r => r.posture.toOpt)).map (fun f => (f - 0) / 5 * 100)

/-- `pandas.Series.mean()`: the mean of the non-missing entries, `NaN` when
every entry is missing. -/
def meanOpt (xs : List (Option ℚ)) : Option ℚ :=
  let vs := xs.reduceOption
  if vs.isEmpty then none else some (vs.sum / vs.length)

/-- The cross-candidate mean of a per-candidate aggregate (`.mean()` on a
series indexed by the grouped keys). -/
def meanOver (t : List (Row κ)) (f : κ → Option ℚ) : Option ℚ :=
  meanOpt ((groupKeys t).map f)

/-- Line 138-139 value: mean heart-rate reduction. -/
def heartRateReductionMean (t : List (Row κ)) : Option ℚ :=
  meanOver t (reductionOf t Row.heartRate)

/-- Lines 132-175: the `percentage_gains` dict, an insertion-ordered mapping
from metric label to mean scalar, built by seven insertions in program order. -/
def percentageGains (t : List (Row κ)) : List (String × Option ℚ) :=
  [ ("Heart Rate Reduction (%)", heartRateReductionMean t)
  , ("Energy Level Increase (%)", meanOver t (increaseOf t (fun r => r.energy.toOpt)))
  , ("Mental Clarity Increase (%)", meanOver t (increaseOf t (fun r => r.clarity.toOpt)))
  , ("Anxiety Reduction (%)", meanOver t (reductionOf t (fun r => r.anxiety.toOpt)))
  , ("Pain Reduction (%)", meanOver t (reductionOf t (fun r => r.pain.toOpt)))
  , ("Posture Improvement (%)", meanOver t (postureImprovementOf t))
  , ("Mood Improvement (%)", meanOver t (increaseOf t (fun r => r.mood.toOpt))) ]

/-! ### Concrete tables used to instantiate the theorems -/

/-- A two-row table for one candidate whose energy and heart rate go 10 to 15. -/
def tblA : List (Row ℕ) :=
  [ ⟨1, 1, .num 10, .num 10, .na, .num 10, .na, some 10, .na⟩
  , ⟨1, 2, .num 15, .num 15, .na, .num 5, .na, some 15, .na⟩ ]

/-- A table with unparseable scale entries and a missing heart rate. -/
def tblB : List (Row ℕ) :=
  [ ⟨1, 1, .str "high", .str "n/a", .str "??", .str "", .na, none, .str "flat"⟩
  , ⟨1, 2, .num 7, .num 6, .num 5, .num 4, .num 3, some 120, .str "~1 degree"⟩ ]

/-! ### Helper lemmas -/

lemma toNumericCoerce_eq_na {c : Cell} (h : parseCell c = none) :
    toNumericCoerce c = Cell.na := by
  simp [toNumericCoerce, h]

lemma toNumericCoerce_ne_str (c : Cell) (s : String) :
    toNumericCoerce c ≠ Cell.str s := by
  cases h : parseCell c <;> simp [toNumericCoerce, h]

/-- A table whose single candidate has four distinct (day, heart-rate)
pairs, enough for a degree-3 spline fit. -/
def tblC : List (Row ℕ) :=
  [ ⟨1, 1, .na, .na, .na, .na, .na, some 100, .na⟩
  , ⟨1, 2, .na, .na, .na, .na, .na, some 110, .na⟩
  , ⟨1, 3, .na, .na, .na, .na, .na, some 105, .na⟩
  , ⟨1, 4, .na, .na, .na, .na, .na, some 95, .na⟩ ]

/-- A table whose single candidate has only two (day, heart-rate) pairs. -/
def tblD : List (Row ℕ) :=
  [ ⟨1, 1, .na, .na, .na, .na, .na, some 100, .na⟩
  , ⟨1, 2, .na, .na, .na, .na, .na, some 110, .na⟩ ]

lemma cleanHeader_no_special (s : List Char) :
    ∀ x ∈ cleanHeader s, isSpecial x = false := by
  intro x hx
  have hm := List.mem_filter.mp hx
  simpa using hm.2

lemma removeSpecial_eq_self {s : List Char} (h : ∀ x ∈ s, isSpecial x = false) :
    removeSpecial s = s := by
  rw [removeSpecial, List.filter_eq_self]
  intro a ha
  simp [h a ha]

lemma pyStrip_subset (s : List Char) : ∀ x ∈ pyStrip s, x ∈ s := by
  intro x hx
  rw [pyStrip] at hx
  have hpre : List.rdropWhile isPySpace (s.dropWhile isPySpace) <+:
      s.dropWhile isPySpace := List.rdropWhile_prefix _ _
  exact (List.dropWhile_suffix isPySpace).subset (hpre.subset hx)

lemma pyStrip_idem (s : List Char) : pyStrip (pyStrip s) = pyStrip s := by
  rw [pyStrip, pyStrip]
  have hdu : List.dropWhile isPySpace
      (List.rdropWhile isPySpace (s.dropWhile isPySpace)) =
      List.rdropWhile isPySpace (s.dropWhile isPySpace) := by
    rcases h : List.rdropWhile isPySpace (s.dropWhile isPySpace) with _ | ⟨a, z⟩
    · simp
    · have hpre : List.rdropWhile isPySpace (s.dropWhile isPySpace) <+:
          s.dropWhile isPySpace := List.rdropWhile_prefix _ _
      rw [h] at hpre
      obtain ⟨tl, htl⟩ := hpre
      have heq : s.dropWhile isPySpace = a :: (z ++ tl) := by
        rw [← htl]
        rfl
      have hna : isPySpace a = false := by
        cases hh : isPySpace a with
        | false => rfl
        | true =>
            have hid : List.dropWhile isPySpace (s.dropWhile isPySpace) =
                s.dropWhile isPySpace := List.dropWhile_idempotent _ _
            rw [heq, List.dropWhile_cons, if_pos hh] at hid
            have hlen := congrArg List.length hid
            have hle : (List.dropWhile isPySpace (z ++ tl)).length ≤
                (z ++ tl).length := (List.dropWhile_sublist _).length_le
            rw [hlen] at hle
            simp at hle
      rw [List.dropWhile_cons]
      simp [hna]
  rw [hdu, List.rdropWhile_idempotent]

/-- A table whose candidates appear in non-sorted first-seen order 2, 1. -/
def tblE : List (Row ℕ) :=
  [ ⟨2, 1, .na, .na, .na, .na, .na, none, .str "~1 degree"⟩
  , ⟨1, 1, .na, .na, .na, .na, .na, none, .str "~ greater than 3 degree"⟩ ]

lemma uniqueAux_sublist [DecidableEq α] :
    ∀ (l seen : List α), (uniqueAux l seen).Sublist l
  | [], _ => List.Sublist.refl []
  | a :: l, seen => by
      rw [uniqueAux]
      by_cases ha : a ∈ seen
      · rw [if_pos ha]
        exact (uniqueAux_sublist l seen).cons a
      · rw [if_neg ha]
        exact (uniqueAux_sublist l (a :: seen)).cons₂ a

lemma mem_uniqueAux [DecidableEq α] (l : List α) :
    ∀ (seen : List α) (x : α), x ∈ uniqueAux l seen ↔ x ∈ l ∧ x ∉ seen := by
  induction l with
  | nil => intro seen x; simp [uniqueAux]
  | cons a l ih =>
      intro seen x
      rw [uniqueAux]
      by_cases ha : a ∈ seen
      · rw [if_pos ha, ih, List.mem_cons]
        constructor
        · rintro ⟨h1, h2⟩
          exact ⟨Or.inr h1, h2⟩
        · rintro ⟨h1 | h1, h2⟩
          · exact absurd (h1 ▸ ha) h2
          · exact ⟨h1, h2⟩
      · rw [if_neg ha, List.mem_cons, ih, List.mem_cons, List.mem_cons]
        constructor
        · rintro (rfl | ⟨h1, h2⟩)
          · exact ⟨Or.inl rfl, ha⟩
          · exact ⟨Or.inr h1, fun hs => h2 (Or.inr hs)⟩
        · rintro ⟨rfl | h1, h2⟩
          · exact Or.inl rfl
          · by_cases hxa : x = a
            · exact Or.inl hxa
            · exact Or.inr ⟨h1, fun hs => hs.elim hxa h2⟩

lemma nodup_uniqueAux [DecidableEq α] (l : List α) :
    ∀ seen : List α, (uniqueAux l seen).Nodup := by
  induction l with
  | nil => intro seen; simp [uniqueAux]
  | cons a l ih =>
      intro seen
      rw [uniqueAux]
      by_cases ha : a ∈ seen
      · rw [if_pos ha]
        exact ih seen
      · rw [if_neg ha]
        refine List.nodup_cons.mpr ⟨?_, ih (a :: seen)⟩
        intro hmem
        exact ((mem_uniqueAux l (a :: seen) a).mp hmem).2 (List.mem_cons_self a seen)

lemma mem_uniqueFirstSeen [DecidableEq α] (l : List α) (x : α) :
    x ∈ uniqueFirstSeen l ↔ x ∈ l := by
  rw [uniqueFirstSeen, mem_uniqueAux]
  simp

lemma nodup_uniqueFirstSeen [DecidableEq α] (l : List α) :
    (uniqueFirstSeen l).Nodup :=
  nodup_uniqueAux l []

lemma uniqueFirstSeen_sublist [DecidableEq α] (l : List α) :
    (uniqueFirstSeen l).Sublist l :=
  uniqueAux_sublist l []

lemma groupKeys_sorted {κ : Type} [LinearOrder κ] (t : List (Row κ)) :
    List.Sorted (· ≤ ·) (groupKeys t) :=
  List.sorted_insertionSort (· ≤ ·) (candidatesOf t)

lemma groupKeys_perm {κ : Type} [LinearOrder κ] (t : List (Row κ)) :
    (groupKeys t).Perm (candidatesOf t) :=
  List.perm_insertionSort (· ≤ ·) (candidatesOf t)

lemma groupKeys_nodup {κ : Type} [LinearOrder κ] (t : List (Row κ)) :
    (groupKeys t).Nodup :=
  ((groupKeys_perm t).nodup_iff).mpr (nodup_uniqueFirstSeen _)

lemma mem_groupKeys {κ : Type} [LinearOrder κ] (t : List (Row κ)) (c : κ) :
    c ∈ groupKeys t ↔ c ∈ t.map Row.candidate := by
  rw [(groupKeys_perm t).mem_iff, candidatesOf, mem_uniqueFirstSeen]

lemma closeLoop_getLast? {l : List α} (h : l ≠ []) :
    (closeLoop l).getLast? = l.head? := by
  cases l with
  | nil => exact absurd rfl h
  | cons a z =>
      show ((a :: z) ++ [a]).getLast? = (a :: z).head?
      rw [List.getLast?_concat]
      rfl

lemma closeLoop_length {l : List α} (h : l ≠ []) :
    (closeLoop l).length = l.length + 1 := by
  cases l with
  | nil => exact absurd rfl h
  | cons a z => simp [closeLoop]

lemma findSome?_eq_head?_reduceOption (f : α → Option β) (l : List α) :
    l.findSome? f = ((l.map f).reduceOption).head? := by
  induction l with
  | nil => rfl
  | cons a l ih =>
      cases hf : f a with
      | none =>
          rw [List.findSome?_cons, hf, List.map_cons, hf,
            List.reduceOption_cons_of_none, ih]
      | some b =>
          rw [List.findSome?_cons, hf, List.map_cons, hf,
            List.reduceOption_cons_of_some]
          rfl

lemma reduceOption_reverse (l : List (Option α)) :
    l.reverse.reduceOption = l.reduceOption.reverse := by
  induction l with
  | nil => rfl
  | cons a l ih =>
      cases a with
      | none =>
          rw [List.reverse_cons, List.reduceOption_append, ih,
            List.reduceOption_cons_of_none]
          simp [List.reduceOption]
      | some b =>
          rw [List.reverse_cons, List.reduceOption_append, ih]
          simp [List.reduceOption]

lemma findSome?_filter_isSome (f : α → Option β) (l : List α) :
    (l.filter (fun x => (f x).isSome)).findSome? f = l.findSome? f := by
  induction l with
  | nil => rfl
  | cons a l ih =>
      cases hf : f a with
      | none =>
          rw [List.filter_cons, List.findSome?_cons, hf]
          simp only [hf, Option.isSome_none, Bool.false_eq_true, if_false]
          exact ih
      | some b =>
          rw [List.filter_cons]
          simp only [hf, Option.isSome_some, if_true]
          rw [List.findSome?_cons, List.findSome?_cons, hf]

lemma findSome?_isSome_iff (f : α → Option β) (l : List α) :
    (l.findSome? f).isSome ↔ ∃ a ∈ l, (f a).isSome := by
  induction l with
  | nil => simp
  | cons a l ih =>
      rw [List.findSome?_cons]
      cases hf : f a with
      | none => simp [hf, ih]
      | some b => simp [hf]

lemma reduceOption_map_filter (f : α → Option β) (l : List α) :
    (l.map f).reduceOption =
      ((l.filter (fun x => (f x).isSome)).map f).reduceOption := by
  induction l with
  | nil => rfl
  | cons a l ih =>
      cases hf : f a with
      | none =>
          rw [List.map_cons, hf, List.reduceOption_cons_of_none, List.filter_cons]
          simp only [hf, Option.isSome_none, Bool.false_eq_true, if_false]
          exact ih
      | some b =>
          rw [List.map_cons, hf, List.reduceOption_cons_of_some, List.filter_cons]
          simp only [hf, Option.isSome_some, if_true]
          rw [List.map_cons, hf, List.reduceOption_cons_of_some, ih]

lemma rowsOf_dropna {κ : Type} [LinearOrder κ] (t : List (Row κ)) (c : κ) :
    rowsOf (dropnaHeartRate t) c = dropnaHeartRate (rowsOf t c) := by
  rw [rowsOf, dropnaHeartRate, dropnaHeartRate, rowsOf,
    List.filter_filter, List.filter_filter]
  exact List.filter_congr (fun r _ => Bool.and_comm _ _)

lemma groupFirst_dropna {κ : Type} [LinearOrder κ] (t : List (Row κ)) (c : κ) :
    groupFirst (dropnaHeartRate t) c Row.heartRate =
      groupFirst t c Row.heartRate := by
  rw [groupFirst, groupFirst, rowsOf_dropna, dropnaHeartRate]
  exact findSome?_filter_isSome Row.heartRate (rowsOf t c)

lemma groupLast_dropna {κ : Type} [LinearOrder κ] (t : List (Row κ)) (c : κ) :
    groupLast (dropnaHeartRate t) c Row.heartRate =
      groupLast t c Row.heartRate := by
  rw [groupLast, groupLast, rowsOf_dropna, dropnaHeartRate, ← List.filter_reverse]
  exact findSome?_filter_isSome Row.heartRate (rowsOf t c).reverse

lemma reductionOf_dropna {κ : Type} [LinearOrder κ] (t : List (Row κ)) (c : κ) :
    reductionOf (dropnaHeartRate t) Row.heartRate c =
      reductionOf t Row.heartRate c := by
  rw [reductionOf, reductionOf, groupFirst_dropna, groupLast_dropna]

lemma reductionOf_isSome_iff {κ : Type} [LinearOrder κ]
    (t : List (Row κ)) (c : κ) :
    (reductionOf t Row.heartRate c).isSome ↔
      ∃ r ∈ t, r.candidate = c ∧ r.heartRate.isSome := by
  have hrows : ∀ r : Row κ, r ∈ rowsOf t c ↔ r ∈ t ∧ r.candidate = c := by
    intro r
    rw [rowsOf, List.mem_filter]
    simp
  have hE : (groupFirst t c Row.heartRate).isSome ↔
      ∃ r ∈ t, r.candidate = c ∧ r.heartRate.isSome := by
    rw [groupFirst, findSome?_isSome_iff]
    constructor
    · rintro ⟨r, hr, hs⟩
      obtain ⟨hrt, hrc⟩ := (hrows r).mp hr
      exact ⟨r, hrt, hrc, hs⟩
    · rintro ⟨r, hrt, hrc, hs⟩
      exact ⟨r, (hrows r).mpr ⟨hrt, hrc⟩, hs⟩
  have hL : (groupLast t c Row.heartRate).isSome ↔
      ∃ r ∈ t, r.candidate = c ∧ r.heartRate.isSome := by
    rw [groupLast, findSome?_isSome_iff]
    constructor
    · rintro ⟨r, hr, hs⟩
      obtain ⟨hrt, hrc⟩ := (hrows r).mp (List.mem_reverse.mp hr)
      exact ⟨r, hrt, hrc, hs⟩
    · rintro ⟨r, hrt, hrc, hs⟩
      exact ⟨r, List.mem_reverse.mpr ((hrows r).mpr ⟨hrt, hrc⟩), hs⟩
  rw [reductionOf]
  cases hf : groupFirst t c Row.heartRate with
  | none =>
      rw [hf] at hE
      simp only [Option.map₂, Option.bind]
      simpa using hE
  | some i =>
      cases hl : groupLast t c Row.heartRate with
      | none =>
          rw [hl] at hL
          simp only [Option.map₂]
          simp
          simpa using hL
      | some f =>
          rw [hf] at hE
          simp only [Option.map₂]
          simp
          simpa using hE

lemma groupKeys_dropna_eq {κ : Type} [LinearOrder κ] (t : List (Row κ)) :
    (groupKeys t).filter (fun c => (reductionOf t Row.heartRate c).isSome) =
      groupKeys (dropnaHeartRate t) := by
  refine List.eq_of_perm_of_sorted
    ((List.perm_ext_iff_of_nodup (List.Nodup.filter _ (groupKeys_nodup t))
      (groupKeys_nodup _)).mpr ?_)
    (List.Sorted.filter _ (groupKeys_sorted t)) (groupKeys_sorted _)
  intro c
  rw [List.mem_filter, mem_groupKeys, mem_groupKeys]
  constructor
  · rintro ⟨hmem, hsome⟩
    obtain ⟨r, hrt, hrc, hs⟩ := (reductionOf_isSome_iff t c).mp hsome
    exact List.mem_map.mpr ⟨r, List.mem_filter.mpr ⟨hrt, hs⟩, hrc⟩
  · intro hmem
    obtain ⟨r, hrd, hrc⟩ := List.mem_map.mp hmem
    obtain ⟨hrt, hs⟩ := List.mem_filter.mp hrd
    exact ⟨List.mem_map.mpr ⟨r, hrt, hrc⟩,
      (reductionOf_isSome_iff t c).mpr ⟨r, hrt, hrc, hs⟩⟩

/-! ### Claim theorems -/

/-- C1: every first-to-last metric of the percentage-gain summarizer computes
the per-candidate change against the first-day value, a reduction metric as
`(initial - final) / initial * 100`, an increase metric as
`(final - initial) / initial * 100`; in particular 10 to 15 on an increase
metric gives 50 and 10 to 5 on a reduction metric gives 50. -/
theorem pct_change_formula {κ : Type} [LinearOrder κ] (t : List (Row κ))
    (v : Row κ → Option ℚ) (c : κ) (i f : ℚ)
    (hf : groupFirst t c v = some i) (hl : groupLast t c v = some f) :
    increaseOf t v c = some ((f - i) / i * 100) ∧
    reductionOf t v c = some ((i - f) / i * 100) ∧
    pctIncrease 10 15 = 50 ∧ pctReduction 10 5 = 50 := by
  refine ⟨?_, ?_, ?_, ?_⟩
  · simp [increaseOf, hf, hl, pctIncrease]
  · simp [reductionOf, hf, hl, pctReduction]
  · norm_num [pctIncrease]
  · norm_num [pctReduction]

/-- Witness for C1 at a concrete table: candidate 1 has first heart rate 10
and last heart rate 15. -/
theorem pct_change_formula_witness :
    increaseOf tblA Row.heartRate 1 = some ((15 - 10) / 10 * 100) ∧
    reductionOf tblA Row.heartRate 1 = some ((10 - 15) / 10 * 100) ∧
    pctIncrease 10 15 = 50 ∧ pctReduction 10 5 = 50 :=
  pct_change_formula tblA Row.heartRate 1 10 15 rfl rfl

/-- C2: for every row of the table, each of the five designated 0-10 scale
columns whose raw value is not parseable as a number is cleaned to the
missing marker, and the coercion is total (the cleaned cell is never a
string, so no parse exception reaches the caller). -/
theorem numeric_coercion_spec {κ : Type} (t : List (Row κ)) (i : ℕ) (r : Row κ)
    (hi : t[i]? = some r) :
    (cleanTable t)[i]? = some (cleanRow r) ∧
    (parseCell r.energy = none → (cleanRow r).energy = Cell.na) ∧
    (parseCell r.mood = none → (cleanRow r).mood = Cell.na) ∧
    (parseCell r.clarity = none → (cleanRow r).clarity = Cell.na) ∧
    (parseCell r.anxiety = none → (cleanRow r).anxiety = Cell.na) ∧
    (parseCell r.pain = none → (cleanRow r).pain = Cell.na) ∧
    (∀ s, (cleanRow r).energy ≠ Cell.str s ∧ (cleanRow r).mood ≠ Cell.str s ∧
      (cleanRow r).clarity ≠ Cell.str s ∧ (cleanRow r).anxiety ≠ Cell.str s ∧
      (cleanRow r).pain ≠ Cell.str s) := by
  refine ⟨by simp [cleanTable, hi], fun h => ?_, fun h => ?_, fun h => ?_,
    fun h => ?_, fun h => ?_, fun s => ?_⟩
  · simp [cleanRow, toNumericCoerce_eq_na h]
  · simp [cleanRow, toNumericCoerce_eq_na h]
  · simp [cleanRow, toNumericCoerce_eq_na h]
  · simp [cleanRow, toNumericCoerce_eq_na h]
  · simp [cleanRow, toNumericCoerce_eq_na h]
  · exact ⟨toNumericCoerce_ne_str _ s, toNumericCoerce_ne_str _ s,
      toNumericCoerce_ne_str _ s, toNumericCoerce_ne_str _ s,
      toNumericCoerce_ne_str _ s⟩

/-- Witness for C2: the first row of `tblB` carries five unparseable scale
entries, and cleaning turns each into the missing marker. -/
theorem numeric_coercion_spec_witness :
    (cleanTable tblB)[0]? = some (cleanRow (tblB.get ⟨0, by decide⟩)) ∧
    (parseCell (tblB.get ⟨0, by decide⟩).energy = none →
      (cleanRow (tblB.get ⟨0, by decide⟩)).energy = Cell.na) ∧
    (parseCell (tblB.get ⟨0, by decide⟩).mood = none →
      (cleanRow (tblB.get ⟨0, by decide⟩)).mood = Cell.na) ∧
    (parseCell (tblB.get ⟨0, by decide⟩).clarity = none →
      (cleanRow (tblB.get ⟨0, by decide⟩)).clarity = Cell.na) ∧
    (parseCell (tblB.get ⟨0, by decide⟩).anxiety = none →
      (cleanRow (tblB.get ⟨0, by decide⟩)).anxiety = Cell.na) ∧
    (parseCell (tblB.get ⟨0, by decide⟩).pain = none →
      (cleanRow (tblB.get ⟨0, by decide⟩)).pain = Cell.na) ∧
    (∀ s, (cleanRow (tblB.get ⟨0, by decide⟩)).energy ≠ Cell.str s ∧
      (cleanRow (tblB.get ⟨0, by decide⟩)).mood ≠ Cell.str s ∧
      (cleanRow (tblB.get ⟨0, by decide⟩)).clarity ≠ Cell.str s ∧
      (cleanRow (tblB.get ⟨0, by decide⟩)).anxiety ≠ Cell.str s ∧
      (cleanRow (tblB.get ⟨0, by decide⟩)).pain ≠ Cell.str s) :=
  numeric_coercion_spec tblB 0 (tblB.get ⟨0, by decide⟩) rfl

/-- C3: the heart-rate filter keeps exactly the rows with a present
heart-rate value, preserves the relative order of the retained rows, and
leaves the source table unchanged. -/
theorem heart_rate_filter_spec {κ : Type} (t : List (Row κ)) :
    (heartRateFilterStep t).1 = t ∧
    (dropnaHeartRate t).Sublist t ∧
    (∀ r ∈ dropnaHeartRate t, r.heartRate.isSome) ∧
    (∀ r ∈ t, r.heartRate.isSome → r ∈ dropnaHeartRate t) ∧
    (∀ r ∈ t, r ∉ dropnaHeartRate t → r.heartRate = none) := by
  refine ⟨rfl, List.filter_sublist t, fun r hr => ?_, fun r hr hs => ?_,
    fun r hr hn => ?_⟩
  · exact (List.mem_filter.mp hr).2
  · exact List.mem_filter.mpr ⟨hr, hs⟩
  · by_contra h
    exact hn (List.mem_filter.mpr ⟨hr, Option.ne_none_iff_isSome.mp h⟩)

/-- Witness for C3 at a concrete table: the second row of `tblB` has a
present heart rate and is retained. -/
theorem heart_rate_filter_spec_witness :
    (tblB.get ⟨1, by decide⟩) ∈ dropnaHeartRate tblB :=
  (heart_rate_filter_spec tblB).2.2.2.1 (tblB.get ⟨1, by decide⟩)
    (by simp [tblB]) rfl

/-- C6: the posture-category replacement maps exactly the three documented
strings to 1, 3 and 5, and leaves every other cell unchanged. -/
theorem posture_map_spec (c : Cell)
    (h1 : c ≠ Cell.str "~1 degree")
    (h2 : c ≠ Cell.str "~ greater than 3 degree")
    (h3 : c ≠ Cell.str "~ greater than 5 degrees") :
    postureMap (Cell.str "~1 degree") = Cell.num 1 ∧
    postureMap (Cell.str "~ greater than 3 degree") = Cell.num 3 ∧
    postureMap (Cell.str "~ greater than 5 degrees") = Cell.num 5 ∧
    postureMap c = c := by
  refine ⟨rfl, ?_, ?_, ?_⟩
  · simp [postureMap]
  · simp [postureMap]
  · simp [postureMap, h1, h2, h3]

/-- Witness for C6: the unmapped posture entry `"flat"` is left unchanged. -/
theorem posture_map_spec_witness :
    postureMap (Cell.str "~1 degree") = Cell.num 1 ∧
    postureMap (Cell.str "~ greater than 3 degree") = Cell.num 3 ∧
    postureMap (Cell.str "~ greater than 5 degrees") = Cell.num 5 ∧
    postureMap (Cell.str "flat") = Cell.str "flat" :=
  posture_map_spec (Cell.str "flat") (by decide) (by decide) (by decide)

/-- C7: the printed percentage-gain mapping has exactly seven entries, in
the fixed insertion order of the program. -/
theorem percentage_gains_keys {κ : Type} [LinearOrder κ] (t : List (Row κ)) :
    (percentageGains t).map Prod.fst =
      [ "Heart Rate Reduction (%)", "Energy Level Increase (%)"
      , "Mental Clarity Increase (%)", "Anxiety Reduction (%)"
      , "Pain Reduction (%)", "Posture Improvement (%)"
      , "Mood Improvement (%)" ] ∧
    (percentageGains t).length = 7 :=
  ⟨rfl, rfl⟩

/-- C8 counterexample: header cleaning is not idempotent.  On the header
`"[ a ]"`, one pass strips nothing (no outer whitespace), removes the
brackets and leaves `" a "`; the second pass strips the newly exposed
whitespace and gives `"a"`. -/
theorem header_cleaning_not_idempotent :
    cleanHeader (cleanHeader ("[ a ]".toList)) ≠ cleanHeader ("[ a ]".toList) := by
  decide

/-- C8 (amended): a second application of the header normalization is the
strip of the first result — so cleaning is idempotent exactly on headers
whose once-cleaned form carries no leading or trailing whitespace — and the
normalization stabilizes from the second application on. -/
theorem header_cleaning_second_pass (s : List Char) :
    cleanHeader (cleanHeader s) = pyStrip (cleanHeader s) ∧
    cleanHeader (cleanHeader (cleanHeader s)) = cleanHeader (cleanHeader s) ∧
    (pyStrip (cleanHeader s) = cleanHeader s →
      cleanHeader (cleanHeader s) = cleanHeader s) := by
  have key : ∀ u : List Char,
      cleanHeader (cleanHeader u) = pyStrip (cleanHeader u) := by
    intro u
    have h1 : ∀ x ∈ pyStrip (cleanHeader u), isSpecial x = false := fun x hx =>
      cleanHeader_no_special u x (pyStrip_subset _ x hx)
    calc cleanHeader (cleanHeader u)
        = removeSpecial (pyStrip (cleanHeader u)) := rfl
      _ = pyStrip (cleanHeader u) := removeSpecial_eq_self h1
  refine ⟨key s, ?_, fun h => (key s).trans h⟩
  rw [key (cleanHeader s), key s, pyStrip_idem]

/-- Witness for C8's amended claim: on the header `"x"` the once-cleaned
form has no outer whitespace, so a second cleaning changes nothing. -/
theorem header_cleaning_second_pass_witness :
    cleanHeader (cleanHeader ("x".toList)) = cleanHeader ("x".toList) :=
  (header_cleaning_second_pass ("x".toList)).2.2 (by decide)

/-- C4: with at least 4 distinct (day, heart-rate) pairs for a candidate the
heart-rate chart evaluates the degree-3 spline at exactly 300 points evenly
spanning the candidate's day range; with fewer distinct pairs the fit fails
and no curve is produced for that candidate. -/
theorem heart_rate_spline_spec {κ : Type} [LinearOrder κ]
    (t : List (Row κ)) (c : κ) :
    (4 ≤ (candidateHeartRatePts t c).dedup.length →
      ∃ a b, ((candidateHeartRatePts t c).map Prod.fst).min? = some a ∧
        ((candidateHeartRatePts t c).map Prod.fst).max? = some b ∧
        heartRateCurveX t c = some (linspace a b 300) ∧
        (linspace a b 300).length = 300 ∧
        (linspace a b 300).head? = some a ∧
        (linspace a b 300).getLast? = some b ∧
        (∀ i : ℕ, i < 300 →
          (linspace a b 300)[i]? = some (a + (b - a) * i / 299))) ∧
    ((candidateHeartRatePts t c).dedup.length < 4 →
      heartRateCurveX t c = none) := by
  constructor
  · intro h4
    have hne : candidateHeartRatePts t c ≠ [] := by
      intro h0
      rw [h0] at h4
      simp at h4
    have hdays : (candidateHeartRatePts t c).map Prod.fst ≠ [] := by
      simpa using hne
    obtain ⟨a, hmin⟩ : ∃ a, ((candidateHeartRatePts t c).map Prod.fst).min? = some a := by
      cases hm : ((candidateHeartRatePts t c).map Prod.fst).min? with
      | none => exact absurd (List.min?_eq_none_iff.mp hm) hdays
      | some a => exact ⟨a, rfl⟩
    obtain ⟨b, hmax⟩ : ∃ b, ((candidateHeartRatePts t c).map Prod.fst).max? = some b := by
      cases hm : ((candidateHeartRatePts t c).map Prod.fst).max? with
      | none => exact absurd (List.max?_eq_none_iff.mp hm) hdays
      | some b => exact ⟨b, rfl⟩
    have hfit : splineFitOk (candidateHeartRatePts t c) 3 = true := by
      simp only [splineFitOk, decide_eq_true_eq]
      exact h4
    refine ⟨a, b, hmin, hmax, ?_, ?_, ?_, ?_, ?_⟩
    · rw [heartRateCurveX]
      simp only [hfit, if_true, hmin, hmax]
    · rw [linspace, List.length_map, List.length_range]
    · rw [List.head?_eq_getElem?, linspace, List.getElem?_map,
        List.getElem?_range (by norm_num : (0 : ℕ) < 300)]
      norm_num
    · rw [List.getLast?_eq_getElem?, linspace, List.length_map,
        List.length_range, List.getElem?_map,
        List.getElem?_range (by norm_num : 300 - 1 < 300)]
      norm_num
    · intro i hi
      rw [linspace, List.getElem?_map, List.getElem?_range hi]
      norm_num
  · intro hlt
    have hfit : splineFitOk (candidateHeartRatePts t c) 3 = false := by
      simp only [splineFitOk, decide_eq_false_iff_not]
      omega
    rw [heartRateCurveX]
    simp only [hfit, if_false, Bool.false_eq_true]

/-- Witness for C4: candidate 1 of `tblC` has four distinct pairs and gets a
curve; candidate 1 of `tblD` has only two pairs and gets none. -/
theorem heart_rate_spline_spec_witness :
    (∃ a b, ((candidateHeartRatePts tblC 1).map Prod.fst).min? = some a ∧
      ((candidateHeartRatePts tblC 1).map Prod.fst).max? = some b ∧
      heartRateCurveX tblC 1 = some (linspace a b 300) ∧
      (linspace a b 300).length = 300 ∧
      (linspace a b 300).head? = some a ∧
      (linspace a b 300).getLast? = some b ∧
      (∀ i : ℕ, i < 300 →
        (linspace a b 300)[i]? = some (a + (b - a) * i / 299))) ∧
    heartRateCurveX tblD 1 = none :=
  ⟨(heart_rate_spline_spec tblC 1).1 (by decide),
   (heart_rate_spline_spec tblD 1).2 (by decide)⟩

/-- C9 counterexample: in a table whose candidates first appear in the order
2, 1, the plot-series list of line 30 is `[2, 1]` (first-seen order) but the
radar chart's category axis, the `groupby` index, is the sorted `[1, 2]`. -/
theorem radar_categories_not_first_seen :
    candidatesOf tblE = [2, 1] ∧ radarCategories tblE = [1, 2] ∧
    radarCategories tblE ≠ candidatesOf tblE := by
  decide

/-- C9 (amended): the candidate list used for grouping loops and plot series
is the distinct candidate values in first-seen order, but the radar chart's
category axis is the `groupby` index, the distinct values in sorted order;
the two agree exactly when the first-seen order is already sorted. -/
theorem candidates_order_spec {κ : Type} [LinearOrder κ] (t : List (Row κ)) :
    (candidatesOf t).Nodup ∧
    (candidatesOf t).Sublist (t.map Row.candidate) ∧
    (∀ x, x ∈ candidatesOf t ↔ x ∈ t.map Row.candidate) ∧
    (radarCategories t).Perm (candidatesOf t) ∧
    List.Sorted (· ≤ ·) (radarCategories t) ∧
    (List.Sorted (· ≤ ·) (candidatesOf t) →
      radarCategories t = candidatesOf t) := by
  refine ⟨nodup_uniqueFirstSeen _, uniqueFirstSeen_sublist _,
    fun x => mem_uniqueFirstSeen _ x, groupKeys_perm t, groupKeys_sorted t,
    fun hs => ?_⟩
  exact List.eq_of_perm_of_sorted (groupKeys_perm t) (groupKeys_sorted t) hs

/-- Witness for C9's amended claim: on a table whose candidates appear
already sorted, the radar category axis equals the first-seen order. -/
theorem candidates_order_spec_witness :
    radarCategories tblA = candidatesOf tblA :=
  (candidates_order_spec tblA).2.2.2.2.2 (by decide)

/-- C5: the radar chart draws one angular slot per candidate, the slots are
`n / N * 2π` for `n < N` (evenly spaced over the full circle), and both
plotted sequences are closed by repeating the first entry at the end. -/
theorem radar_chart_spec {κ : Type} [LinearOrder κ] (twoPi : ℚ)
    (t : List (Row κ)) :
    (radarCategories t).length = (candidatesOf t).length ∧
    (radarAngles twoPi (radarCategories t).length).length =
      (radarCategories t).length ∧
    (posturePerCandidate t).length = (radarCategories t).length ∧
    (∀ n : ℕ, n < (radarCategories t).length →
      (radarAngles twoPi (radarCategories t).length)[n]? =
        some ((n : ℚ) / ((radarCategories t).length : ℚ) * twoPi)) ∧
    (1 ≤ (radarCategories t).length →
      (closeLoop (radarAngles twoPi (radarCategories t).length)).getLast? =
        (radarAngles twoPi (radarCategories t).length).head? ∧
      (closeLoop (posturePerCandidate t)).getLast? =
        (posturePerCandidate t).head? ∧
      (closeLoop (radarAngles twoPi (radarCategories t).length)).length =
        (radarCategories t).length + 1 ∧
      (closeLoop (posturePerCandidate t)).length =
        (radarCategories t).length + 1) := by
  have hlen : (radarCategories t).length = (candidatesOf t).length :=
    (groupKeys_perm t).length_eq
  have hang : (radarAngles twoPi (radarCategories t).length).length =
      (radarCategories t).length := by
    rw [radarAngles, List.length_map, List.length_range]
  have hppc : (posturePerCandidate t).length = (radarCategories t).length := by
    rw [posturePerCandidate, List.length_map]
    rfl
  refine ⟨hlen, hang, hppc, fun n hn => ?_, fun h1 => ?_⟩
  · rw [radarAngles, List.getElem?_map, List.getElem?_range hn]
    rfl
  · have hane : radarAngles twoPi (radarCategories t).length ≠ [] := by
      intro h0
      rw [h0] at hang
      rw [← hang] at h1
      simp at h1
    have hpne : posturePerCandidate t ≠ [] := by
      intro h0
      rw [h0] at hppc
      rw [← hppc] at h1
      simp at h1
    exact ⟨closeLoop_getLast? hane, closeLoop_getLast? hpne,
      by rw [closeLoop_length hane, hang],
      by rw [closeLoop_length hpne, hppc]⟩

/-- Witness for C5 at a two-candidate table: the second slot sits at
`1 / 2 * 2π` and both rendered sequences are closed with one extra vertex. -/
theorem radar_chart_spec_witness :
    (radarAngles 7 (radarCategories tblE).length)[1]? =
      some (((1 : ℕ) : ℚ) / (((radarCategories tblE).length : ℕ) : ℚ) * 7) ∧
    ((closeLoop (radarAngles 7 (radarCategories tblE).length)).getLast? =
        (radarAngles 7 (radarCategories tblE).length).head? ∧
      (closeLoop (posturePerCandidate tblE)).getLast? =
        (posturePerCandidate tblE).head? ∧
      (closeLoop (radarAngles 7 (radarCategories tblE).length)).length =
        (radarCategories tblE).length + 1 ∧
      (closeLoop (posturePerCandidate tblE)).length =
        (radarCategories tblE).length + 1) :=
  ⟨(radar_chart_spec 7 tblE).2.2.2.1 1 (by decide),
   (radar_chart_spec 7 tblE).2.2.2.2 (by decide)⟩

/-- C10: for every candidate and sampled metric the summarizer's initial and
final values are the first and last non-missing values of the candidate's
rows in table order, so the mean heart-rate reduction computed from the
unfiltered table equals the one computed from the heart-rate-filtered
subset. -/
theorem group_first_last_skip_missing {κ : Type} [LinearOrder κ]
    (t : List (Row κ)) (v : Row κ → Option ℚ) (c : κ) :
    groupFirst t c v = (((rowsOf t c).map v).reduceOption).head? ∧
    groupLast t c v = (((rowsOf t c).map v).reduceOption).getLast? ∧
    heartRateReductionMean t = heartRateReductionMean (dropnaHeartRate t) := by
  refine ⟨findSome?_eq_head?_reduceOption v (rowsOf t c), ?_, ?_⟩
  · rw [groupLast, findSome?_eq_head?_reduceOption v (rowsOf t c).reverse,
      List.map_reverse, reduceOption_reverse, List.head?_reverse]
  · rw [heartRateReductionMean, heartRateReductionMean, meanOver, meanOver]
    have h1 : (groupKeys (dropnaHeartRate t)).map
        (reductionOf (dropnaHeartRate t) Row.heartRate) =
        (groupKeys (dropnaHeartRate t)).map (reductionOf t Row.heartRate) :=
      List.map_congr_left (fun c _ => reductionOf_dropna t c)
    rw [h1]
    have h2 : ((groupKeys t).map (reductionOf t Row.heartRate)).reduceOption =
        ((groupKeys (dropnaHeartRate t)).map
          (reductionOf t Row.heartRate)).reduceOption := by
      rw [reduceOption_map_filter, groupKeys_dropna_eq]
    simp only [meanOpt]
    rw [h2]

end BuildCharts
